import Mathlib

/-!
# Verification of the search-console client core

Shallow embedding of the client-side search session logic of the
frontend-acorag repository: the `App` component's state handlers
(`handleSearch`, `handleRefine`, `updateRecentSearches`), the `SearchBar`
submit path and suggestion generator, and the `ResultsList` sorting and
grouping pipeline.

Modelling conventions:
* React `useState` cells are collected into explicit state records; a
  handler becomes a function from the old state (plus its arguments and,
  for the asynchronous search, the backend outcome) to the new state.
* JavaScript strings are Lean `String`s; `undefined`-able values are
  `Option`s.  A JS object of the `Filters` shape is a record of three
  optional fields; an object literal is always truthy, so an optional
  filters argument is `Option Filters` and `filters || prev.filters`
  becomes a `match` on that option.
* `String.prototype.split(sep)` splits at **every** occurrence of the
  separator; array destructuring `const [a, b] = xs` reads the first two
  elements, the second being `undefined` when absent.  Both are modelled
  exactly (`jsSplitColon`, and `parts[1]?` as an `Option`).
* `JSON.parse` applied to a payload of the `Filters` shape is modelled by
  a parser for flat JSON objects with string keys and string values
  (`jsonParseFlatObj`); escape sequences inside string literals are not
  modelled (none of the payloads of interest contain them).  A parse
  failure models the `SyntaxError` thrown by `JSON.parse`.
* `new Date(s).getTime()` is modelled for ISO `YYYY-MM-DD` strings by an
  order-preserving integer encoding; every other string (in particular
  the empty string substituted for an absent `date_modified`) yields an
  invalid date, i.e. `NaN`, modelled as `none`.  A sort comparator whose
  JS value would be `NaN` is coerced to `0`, exactly as the ECMAScript
  `SortCompare` operation does.
* `Array.prototype.sort` is stable (ES2019); a stable sort with a
  consistent comparator has a unique result, modelled by
  `List.insertionSort` with the relation `cmp a b ≤ 0`.
* `score` is a float in `[0,1]` in the source; only its ordering is ever
  used, and IEEE comparison and the sign of IEEE subtraction agree with
  the real ordering on such values, so it is embedded as an `Int`
  (e.g. scaled by 100).
* `localStorage.setItem` is modelled by a `storedRecent` state field
  holding the last persisted list.
-/

namespace Acorag

open List

/-! ## JS string primitives -/

/-- `s.split(':')` on a character list: splits at every colon. -/
def splitColonAux (cur : List Char) : List Char → List (List Char)
  | [] => [cur.reverse]
  | c :: rest =>
    if c = ':' then cur.reverse :: splitColonAux [] rest
    else splitColonAux (c :: cur) rest

/-- Model of `refinement.split(':')`. -/
def jsSplitColon (s : String) : List String :=
  (splitColonAux [] s.toList).map String.mk

/-- ASCII whitespace, enough for the trims and JSON payloads that occur. -/
def isWsChar (c : Char) : Bool :=
  c = ' ' ∨ c = '\t' ∨ c = '\n' ∨ c = '\r'

/-- Model of `String.prototype.trim` (restricted to ASCII whitespace). -/
def jsTrim (s : String) : String :=
  String.mk (((s.toList.dropWhile isWsChar).reverse.dropWhile isWsChar).reverse)

/-- `needle` occurs as a contiguous substring of `hay`
(model of `String.prototype.includes` on character lists). -/
def listIncludes (needle : List Char) : List Char → Bool
  | [] => needle.isEmpty
  | c :: t => needle.isPrefixOf (c :: t) || listIncludes needle t

/-- Model of `hay.includes(needle)`. -/
def strIncludes (hay needle : String) : Bool :=
  listIncludes needle.toList hay.toList

/-! ## A flat JSON object parser (model of `JSON.parse` on `Filters` payloads) -/

/-- Skip leading JSON whitespace. -/
def skipWs : List Char → List Char
  | [] => []
  | c :: rest => if isWsChar c then skipWs rest else c :: rest

/-- Parse the body of a JSON string literal (no escape sequences). -/
def parseStrBody (acc : List Char) : List Char → Option (String × List Char)
  | [] => none
  | c :: rest =>
    if c = '"' then some (String.mk acc.reverse, rest)
    else if c = '\\' then none
    else parseStrBody (c :: acc) rest

/-- Parse a JSON string literal. -/
def parseStrLit : List Char → Option (String × List Char)
  | '"' :: rest => parseStrBody [] rest
  | _ => none

/-- Parse a comma-separated sequence of `"key" : "value"` pairs. -/
def parsePairsAux : Nat → List Char → Option (List (String × String) × List Char)
  | 0, _ => none
  | fuel + 1, s =>
    match parseStrLit (skipWs s) with
    | none => none
    | some (k, rest) =>
      match skipWs rest with
      | ':' :: rest2 =>
        match parseStrLit (skipWs rest2) with
        | none => none
        | some (v, rest3) =>
          match skipWs rest3 with
          | ',' :: rest4 =>
            match parsePairsAux fuel rest4 with
            | some (kvs, rest5) => some ((k, v) :: kvs, rest5)
            | none => none
          | rest4 => some ([(k, v)], rest4)
      | _ => none

/-- Model of `JSON.parse` restricted to flat string-to-string objects
(the `Filters` shape); `none` models a thrown `SyntaxError`. -/
def jsonParseFlatObjStr (s : String) : Option (List (String × String)) :=
  match skipWs s.toList with
  | '{' :: rest =>
    match skipWs rest with
    | '}' :: rest2 => if (skipWs rest2).isEmpty then some [] else none
    | rest1 =>
      match parsePairsAux (s.length + 1) rest1 with
      | some (kvs, rest2) =>
        match skipWs rest2 with
        | '}' :: rest3 => if (skipWs rest3).isEmpty then some kvs else none
        | _ => none
      | none => none
  | _ => none

/-- `JSON.parse(value)` where `value` may be `undefined`
(`JSON.parse(undefined)` throws, hence `none`). -/
def jsonParseFlatObj : Option String → Option (List (String × String))
  | none => none
  | some s => jsonParseFlatObjStr s

/-! ## Data model (from `App.tsx`, `SearchBar.tsx`, `ResultsList.tsx`) -/

/-- The `SearchState['filters']` shape: a partial map of three keys. -/
structure Filters where
  category : Option String
  dateRange : Option String
  documentType : Option String
deriving DecidableEq, Repr

def emptyFilters : Filters := ⟨none, none, none⟩

/-- The `SearchState` record of `App.tsx`.  `sortBy` is typed
`'relevance' | 'date' | 'type'` in TypeScript, but the `sort:` refinement
branch stores `value` through an unchecked cast, so at runtime it can be
any string or `undefined`; the embedding therefore uses `Option String`. -/
structure SearchState where
  query : String
  projectId : Option String
  filters : Filters
  sortBy : Option String
deriving DecidableEq, Repr

def initialSearchState : SearchState :=
  ⟨"", none, emptyFilters, some "relevance"⟩

/-- A `SearchRow` from the API module (fields as consumed by the
components; `score` embedded as a scaled integer, see file header). -/
structure SearchRow where
  document_id : String
  title : String
  snippet : Option String
  score : Int
  doc_type : String
  category : Option String
  date_modified : Option String
deriving DecidableEq, Repr

/-- The aggregate of the `App` component's `useState` cells that the
search logic touches, plus the persisted-ledger model. -/
structure AppState where
  rows : List SearchRow
  loading : Bool
  searchState : SearchState
  recentSearches : List String
  storedRecent : Option (List String)
  error : Option String
deriving DecidableEq, Repr

def initialAppState : AppState :=
  ⟨[], false, initialSearchState, [], none, none⟩

/-- The request object passed to `search(...)` in `handleSearch`. -/
structure BackendRequest where
  query : String
  project_id : Option String
  top_k : Nat
  probes : Nat
deriving DecidableEq, Repr

/-! ## Recent-search ledger (`updateRecentSearches`, App.tsx lines 51-57) -/

/-- `[query, ...prev.filter(q => q !== query)].slice(0, 5)` -/
def updateRecentSearches (query : String) (prev : List String) : List String :=
  (query :: prev.filter (fun q => q ≠ query)).take 5

/-! ## Search submission (`handleSearch`, App.tsx lines 60-93) -/

/-- The synchronous prefix of `handleSearch`, up to and including issuing
the backend call: sets `loading`, clears `error`, updates `searchState`
(`filters: filters || prev.filters` — a JS object is always truthy, so a
provided argument replaces the previous filters wholesale), and builds
the request `{query, project_id, top_k: 12, probes: 10}`. -/
def handleSearchStart (st : AppState) (query : String) (projectId : Option String)
    (filters : Option Filters) : AppState × BackendRequest :=
  ({ st with
      loading := true
      error := none
      searchState :=
        { st.searchState with
            query := query
            projectId := projectId
            filters :=
              match filters with
              | some f => f
              | none => st.searchState.filters } },
   ⟨query, projectId, 12, 10⟩)

/-- Fallback message of the `catch` branch. -/
def fallbackErrorMsg : String := "Error al realizar la búsqueda"

/-- Completion of `handleSearch` when the awaited call settles.  The
error payload is `some msg` when the thrown value was an `Error` (whose
`.message` is used) and `none` otherwise (fallback string).  `finally`
clears `loading` on both paths. -/
def handleSearchResolve (st : AppState) (query : String)
    (res : Except (Option String) (List SearchRow)) : AppState :=
  match res with
  | Except.ok data =>
    let updated := updateRecentSearches query st.recentSearches
    { st with
        rows := data
        recentSearches := updated
        storedRecent := some updated
        loading := false }
  | Except.error m =>
    { st with
        error := some (m.getD fallbackErrorMsg)
        rows := []
        loading := false }

/-! ## Submit path (`handleSubmit`, SearchBar.tsx lines 69-74) -/

/-- `SearchBar`'s `handleSubmit`: guarded by `if (q.trim())`; on
acceptance calls `onSubmit(q, project || undefined, filters)`, which is
`handleSearch`.  Returns the new app state and the issued backend
request, if any. -/
def submit (q project : String) (filters : Filters) (st : AppState) :
    AppState × Option BackendRequest :=
  if jsTrim q = "" then (st, none)
  else
    let r := handleSearchStart st q (if project = "" then none else some project) (some filters)
    (r.1, some r.2)

/-! ## Refinement protocol (`handleRefine`, App.tsx lines 96-115) -/

/-- Outcome of `handleRefine`: a local state update, an uncaught
exception from `JSON.parse` (which aborts the update), or the `default`
branch's delegation `handleSearch(refinement)`. -/
inductive RefineOutcome where
  | setState (st : SearchState)
  | throwErr
  | freeSearch (q : String)
deriving DecidableEq, Repr

/-- Apply one parsed JSON key to a `Filters` record (object spread:
known keys overwrite the field, other keys are inert extra properties). -/
def setFilterKey (f : Filters) (k v : String) : Filters :=
  if k = "category" then { f with category := some v }
  else if k = "dateRange" then { f with dateRange := some v }
  else if k = "documentType" then { f with documentType := some v }
  else f

/-- `{ ...prev.filters, ...parsed }` for a parsed flat object. -/
def applyFilterOverride (f : Filters) : List (String × String) → Filters
  | [] => f
  | (k, v) :: rest => applyFilterOverride (setFilterKey f k v) rest

/-- `handleRefine`: `const [type, value] = refinement.split(':')` (split
at **every** colon; `value` is the second piece or `undefined`), then
`switch (type)` over `'sort'` (store `value` unchecked), `'filter'`
(`JSON.parse(value)` spread into the filters; a parse failure throws),
and `default` (`handleSearch(refinement)` on the whole string). -/
def handleRefine (st : SearchState) (refinement : String) : RefineOutcome :=
  let parts := jsSplitColon refinement
  let ty := parts.headD ""
  let value := parts[1]?
  if ty = "sort" then RefineOutcome.setState { st with sortBy := value }
  else if ty = "filter" then
    match jsonParseFlatObj value with
    | some kvs => RefineOutcome.setState { st with filters := applyFilterOverride st.filters kvs }
    | none => RefineOutcome.throwErr
  else RefineOutcome.freeSearch refinement

/-! ## Result organizer (`ResultsList.tsx` lines 18-43) -/

/-- Digit value of an ASCII digit. -/
def digitVal (c : Char) : Option Nat :=
  if c.isDigit then some (c.toNat - 48) else none

/-- Model of `new Date(s).getTime()` restricted to ISO `YYYY-MM-DD`
strings, via an order-preserving integer encoding; any other string
yields an invalid date (`NaN`), modelled as `none`.  (JS also rejects
some in-format strings with out-of-range day fields, e.g. `2021-02-31`;
that refinement is irrelevant to every claim and is not modelled.) -/
def jsDateMs (s : String) : Option Int :=
  match s.toList with
  | [y1, y2, y3, y4, '-', m1, m2, '-', d1, d2] =>
    match digitVal y1, digitVal y2, digitVal y3, digitVal y4,
          digitVal m1, digitVal m2, digitVal d1, digitVal d2 with
    | some a, some b, some c, some d, some e, some f, some g, some h =>
      let mo := e * 10 + f
      let da := g * 10 + h
      if 1 ≤ mo ∧ mo ≤ 12 ∧ 1 ≤ da ∧ da ≤ 31 then
        some (Int.ofNat ((((a * 10 + b) * 10 + c) * 10 + d) * 10000 + mo * 100 + da))
      else none
    | _, _, _, _, _, _, _, _ => none
  | _ => none

/-- `new Date(x || '').getTime()`: an absent date becomes `''`, which is
an invalid date (`NaN`), i.e. `none`. -/
def jsDateMsOpt : Option String → Option Int
  | none => none
  | some s => jsDateMs s

/-- The `'date'` comparator: `new Date(b...).getTime() - new Date(a...)
.getTime()`.  If either operand is `NaN` the JS result is `NaN`, which
the ECMAScript `SortCompare` operation coerces to `+0`. -/
def cmpDate (a b : SearchRow) : Int :=
  match jsDateMsOpt b.date_modified, jsDateMsOpt a.date_modified with
  | some tb, some ta => tb - ta
  | _, _ => 0

/-- Sign-valued string comparison (model of `localeCompare`, taken as
codepoint-lexicographic order; exact for the same-case ASCII document
types that occur). -/
def strCmpInt (a b : String) : Int :=
  if a < b then -1 else if b < a then 1 else 0

/-- The `'type'` comparator: `a.doc_type.localeCompare(b.doc_type)`. -/
def cmpType (a b : SearchRow) : Int :=
  strCmpInt a.doc_type b.doc_type

/-- The default comparator: `b.score - a.score`. -/
def cmpRel (a b : SearchRow) : Int :=
  b.score - a.score

/-- The `switch (sortBy)` inside the sort callback. -/
def rowCmp (sortBy : String) (a b : SearchRow) : Int :=
  if sortBy = "date" then cmpDate a b
  else if sortBy = "type" then cmpType a b
  else cmpRel a b

/-- Model of the stable `Array.prototype.sort` with an integer-valued
comparator: a stable sort placing `a` before `b` when `cmp a b ≤ 0`. -/
def jsSortBy {α : Type} (cmp : α → α → Int) (l : List α) : List α :=
  List.insertionSort (fun a b => cmp a b ≤ 0) l

/-- `processedRows`: copy of `rows` sorted by the selected comparator. -/
def sortedRows (rows : List SearchRow) (sortBy : String) : List SearchRow :=
  jsSortBy (rowCmp sortBy) rows

/-- `row.doc_type || 'Otros'`: the only falsy string is `''`. -/
def rowGroupKey (r : SearchRow) : String :=
  if r.doc_type = "" then "Otros" else r.doc_type

/-- `if (!acc[key]) acc[key] = []; acc[key].push(row)` on an association
list in insertion order (JS object keys of this shape preserve insertion
order). -/
def addToGroups : List (String × List SearchRow) → String → SearchRow →
    List (String × List SearchRow)
  | [], k, r => [(k, [r])]
  | (k', g) :: rest, k, r =>
    if k' = k then (k', g ++ [r]) :: rest
    else (k', g) :: addToGroups rest k r

/-- The `reduce` building `groupedResults` from the sorted rows. -/
def groupedResults (rows : List SearchRow) : List (String × List SearchRow) :=
  rows.foldl (fun acc r => addToGroups acc (rowGroupKey r) r) []

/-! ## Suggestion generator (`generateSuggestions`, SearchBar.tsx lines 32-54) -/

inductive SuggestionKind where
  | recent
  | popular
  | category
deriving DecidableEq, Repr

structure Suggestion where
  text : String
  kind : SuggestionKind
  icon : Option String
deriving DecidableEq, Repr

/-- `allSuggestions`: up to three most-recent searches, then all
categories, with their icons. -/
def suggestionPool (recents categories : List String) : List Suggestion :=
  (recents.take 3).map (fun s => ⟨s, SuggestionKind.recent, some "🕒"⟩)
    ++ categories.map (fun c => ⟨c, SuggestionKind.category, some "📁"⟩)

/-- `generateSuggestions`: if the query is non-empty (truthy), keep the
pool entries whose lower-cased text includes the lower-cased query;
otherwise the whole pool. -/
def generateSuggestions (q : String) (recents categories : List String) :
    List Suggestion :=
  let pool := suggestionPool recents categories
  if q = "" then pool
  else pool.filter (fun sug => strIncludes sug.text.toLower q.toLower)

/-! ## Concrete fixtures used by counterexamples and witnesses -/

/-- A session state with a previously selected date range. -/
def searchStateWithWeek : SearchState :=
  { initialSearchState with filters := ⟨none, some "week", none⟩ }

/-- App state carrying `searchStateWithWeek`. -/
def stateWithWeek : AppState :=
  { initialAppState with searchState := searchStateWithWeek }

/-- A filter override setting only `category`. -/
def planosOverride : Filters := ⟨some "Planos", none, none⟩

/-- A row without a `date_modified`. -/
def rowNoDate : SearchRow := ⟨"1", "A", none, 50, "t", none, none⟩

/-- A row with a parseable `date_modified`. -/
def rowDated : SearchRow := ⟨"2", "B", none, 40, "t", none, some "2020-01-05"⟩

/-- A later-dated row. -/
def rowDated2 : SearchRow := ⟨"3", "C", none, 60, "t", none, some "2021-05-02"⟩

/-- The spec's claimed ordering key for `sort:date`: an absent or
unparseable date counts as epoch zero.  This definition follows the
spec's words and exists only to state the date-ordering part of the
claims; the code's actual comparator is `cmpDate`. -/
def specDateKey (r : SearchRow) : Int :=
  (jsDateMsOpt r.date_modified).getD 0

/-! ## C1 -/

/-- C1: the claim says the refinement command is split at the *first*
colon only, the entire remainder (possibly containing colons) being the
payload, so that `applyRefinement("filter:{\"category\":\"Planos\"}")`
merges `category` while preserving `dateRange`.  The code instead splits
at *every* colon and destructures only the first two pieces, so the
payload handed to `JSON.parse` is the text between the first and second
colon; on the spec's own example that truncated payload is not JSON and
`JSON.parse` throws.  (The untruncated remainder would have parsed,
third conjunct.) -/
theorem c1_filter_payload_truncated :
    jsSplitColon "filter:\x7b\"category\":\"Planos\"\x7d"
      = ["filter", "\x7b\"category\"", "\"Planos\"\x7d"] ∧
    handleRefine searchStateWithWeek "filter:\x7b\"category\":\"Planos\"\x7d"
      = RefineOutcome.throwErr ∧
    jsonParseFlatObjStr "\x7b\"category\":\"Planos\"\x7d"
      = some [("category", "Planos")] := by
  decide

/-! ## C2 -/

/-- C2 (counterexample): an unknown `sort` payload is *not* a no-op —
the unchecked cast stores `"hola"` into `sortBy`, changing the session
state — and a malformed `filter` payload makes the uncaught `JSON.parse`
exception abort the update rather than being ignored. -/
theorem c2_counterexample :
    handleRefine initialSearchState "sort:hola"
      = RefineOutcome.setState { initialSearchState with sortBy := some "hola" } ∧
    ({ initialSearchState with sortBy := some "hola" } ≠ initialSearchState) ∧
    handleRefine initialSearchState "filter:nope" = RefineOutcome.throwErr := by
  decide

/-- C2 (amended): a `filter` command whose (post-split) payload fails to
parse makes `JSON.parse` throw — the state update is aborted by an
uncaught exception, not treated as a no-op — and a `sort` command stores
its payload into `sortBy` unchecked, whatever string it is. -/
theorem c2_amended_parse_failures (st : SearchState) (s : String) :
    ((∃ v rest, jsSplitColon s = "filter" :: v :: rest ∧ jsonParseFlatObjStr v = none) →
      handleRefine st s = RefineOutcome.throwErr) ∧
    (∀ v rest, jsSplitColon s = "sort" :: v :: rest →
      handleRefine st s = RefineOutcome.setState { st with sortBy := some v }) := by
  constructor
  · rintro ⟨v, rest, hsplit, hparse⟩
    simp [handleRefine, hsplit, jsonParseFlatObj, hparse]
  · intro v rest hsplit
    simp [handleRefine, hsplit]

/-- Witness for C2's amended theorem at a concrete command. -/
theorem c2_amended_witness :
    handleRefine initialSearchState "filter:oops" = RefineOutcome.throwErr :=
  (c2_amended_parse_failures initialSearchState "filter:oops").1
    ⟨"oops", [], by decide, by decide⟩

/-! ## C3 -/

/-- C3 (counterexample): `load:more` is *not* a recognized kind — the
`switch` has no `load` case, so the command falls through to the default
branch and is re-submitted as the free-text query `"load:more"`; the
backend request issued for it is an ordinary search request (with no
paging field anywhere in the call). -/
theorem c3_counterexample :
    handleRefine initialSearchState "load:more"
      = RefineOutcome.freeSearch "load:more" ∧
    (handleSearchStart initialAppState "load:more" none none).2
      = BackendRequest.mk "load:more" none 12 10 := by
  decide

/-- C3 (amended): for every session state, `applyRefinement("load:more")`
falls through to the default branch and is treated as a free-text
re-submission of the literal string `"load:more"`; no fetch-next-page
signal exists in the code. -/
theorem c3_amended_fallthrough (st : SearchState) :
    handleRefine st "load:more" = RefineOutcome.freeSearch "load:more" := rfl

/-! ## C4 -/

/-- C4 (counterexample): submitting with a `filterOverride` that sets
only `category` *loses* the previously selected `dateRange` — the code's
`filters: filters || prev.filters` replaces the filter map wholesale
instead of shallow-merging. -/
theorem c4_counterexample :
    stateWithWeek.searchState.filters.dateRange = some "week" ∧
    planosOverride.dateRange = none ∧
    (submit "planos" "" planosOverride stateWithWeek).1.searchState.filters.dateRange
      = none := by
  decide

/-- C4 (amended): on an accepted submit a provided `filterOverride`
fully replaces the current filters (keys absent from the override are
dropped); only when no override is passed at all do the previous
filters persist. -/
theorem c4_amended_full_replace (q project : String) (f : Filters) (st : AppState)
    (h : jsTrim q ≠ "") :
    (submit q project f st).1.searchState.filters = f ∧
    ∀ q2 pid, (handleSearchStart st q2 pid none).1.searchState.filters
      = st.searchState.filters := by
  refine ⟨?_, ?_⟩
  · simp [submit, h, handleSearchStart]
  · intro q2 pid
    simp [handleSearchStart]

/-- Witness for C4's amended theorem at a concrete submit. -/
theorem c4_amended_witness :
    (submit "planos" "" planosOverride stateWithWeek).1.searchState.filters
      = planosOverride :=
  (c4_amended_full_replace "planos" "" planosOverride stateWithWeek (by decide)).1

/-! ## C5 -/

/-- C5: a submit whose text trims to empty is a silent no-op — the
state (hence `loading`, `error` and `rows`) is unchanged and no backend
request is issued. -/
theorem c5_blank_submit_noop (q project : String) (f : Filters) (st : AppState)
    (h : jsTrim q = "") :
    submit q project f st = (st, none) := by
  simp [submit, h]

/-- Witness for C5 on the spec's own examples `""` and `"   "`. -/
theorem c5_witness :
    submit "" "" emptyFilters initialAppState = (initialAppState, none) ∧
    submit "   " "p1" emptyFilters stateWithWeek = (stateWithWeek, none) :=
  ⟨c5_blank_submit_noop "" "" emptyFilters initialAppState (by decide),
   c5_blank_submit_noop "   " "p1" emptyFilters stateWithWeek (by decide)⟩

/-! ## Ledger helper lemmas -/

theorem updateRecent_head (q : String) (prev : List String) :
    (updateRecentSearches q prev).head? = some q := rfl

theorem updateRecent_count (q : String) (prev : List String) :
    (updateRecentSearches q prev).count q = 1 := by
  unfold updateRecentSearches
  rw [List.take_succ_cons, List.count_cons_self]
  have h0 : (prev.filter (fun x => x ≠ q)).count q = 0 := by
    rw [List.count_eq_zero]
    intro hmem
    have := (List.mem_filter.mp hmem).2
    simp at this
  have hsub : ((prev.filter (fun x => x ≠ q)).take 4).count q = 0 :=
    Nat.le_zero.mp (h0 ▸ (List.take_sublist 4 _).count_le q)
  omega

theorem updateRecent_length_le (q : String) (prev : List String) :
    (updateRecentSearches q prev).length ≤ 5 := by
  unfold updateRecentSearches
  simp only [List.length_take]
  omega

theorem filter_ne_length_lt {q : String} {prev : List String} (h : q ∈ prev) :
    (prev.filter (fun x => x ≠ q)).length < prev.length := by
  induction prev with
  | nil => cases h
  | cons a t ih =>
    by_cases ha : a = q
    · rw [List.filter_cons_of_neg (by simp [ha])]
      have := List.length_filter_le (fun x => decide (x ≠ q)) t
      simp only [List.length_cons]
      omega
    · rw [List.filter_cons_of_pos (by simp [ha])]
      have h2 : q ∈ t := by
        rcases List.mem_cons.mp h with h1 | h2
        · exact absurd h1.symm ha
        · exact h2
      have hlt := ih h2
      simp only [List.length_cons]
      omega

theorem updateRecent_nogrow (q : String) (prev : List String) (h : q ∈ prev) :
    (updateRecentSearches q prev).length ≤ prev.length := by
  unfold updateRecentSearches
  have h1 := filter_ne_length_lt h
  have h2 : ((q :: prev.filter (fun x => x ≠ q)).take 5).length
      ≤ (q :: prev.filter (fun x => x ≠ q)).length := by
    rw [List.length_take]
    omega
  simp only [List.length_cons] at h2
  omega

/-! ## C7 -/

/-- C7: after each record, the ledger holds the recorded text exactly
once, at position 0, has length at most 5, does not grow when the text
was already present, and the full updated list is what a successful
search stores and persists. -/
theorem c7_ledger_invariants (text : String) (prev : List String)
    (st : AppState) (data : List SearchRow) :
    (updateRecentSearches text prev).head? = some text ∧
    (updateRecentSearches text prev).count text = 1 ∧
    (updateRecentSearches text prev).length ≤ 5 ∧
    (text ∈ prev → (updateRecentSearches text prev).length ≤ prev.length) ∧
    (handleSearchResolve st text (Except.ok data)).recentSearches
      = updateRecentSearches text st.recentSearches ∧
    (handleSearchResolve st text (Except.ok data)).storedRecent
      = some (updateRecentSearches text st.recentSearches) :=
  ⟨updateRecent_head text prev, updateRecent_count text prev,
   updateRecent_length_le text prev, updateRecent_nogrow text prev,
   rfl, rfl⟩

/-- Witness for C7: re-recording `"a"` over `["b", "a"]` keeps it in
front without growing the ledger. -/
theorem c7_witness :
    (updateRecentSearches "a" ["b", "a"]).head? = some "a" ∧
    (updateRecentSearches "a" ["b", "a"]).length ≤ (["b", "a"] : List String).length := by
  have h := c7_ledger_invariants "a" ["b", "a"] initialAppState []
  exact ⟨h.1, h.2.2.2.1 (by decide)⟩

/-! ## C8 -/

/-- C8: whichever way the backend call settles, `finally` clears the
loading flag; on failure the extracted (or fallback) message is stored
and the row set is cleared; and an accepted search sets the loading
flag when it starts. -/
theorem c8_loading_cleared (st : AppState) (q : String)
    (res : Except (Option String) (List SearchRow)) :
    (handleSearchResolve st q res).loading = false ∧
    (∀ m, res = Except.error m →
      (handleSearchResolve st q res).error = some (m.getD fallbackErrorMsg) ∧
      (handleSearchResolve st q res).rows = []) ∧
    (∀ q2 pid f, ((handleSearchStart st q2 pid f).1).loading = true) := by
  refine ⟨?_, ?_, ?_⟩
  · cases res <;> simp [handleSearchResolve]
  · rintro m rfl
    simp [handleSearchResolve]
  · intro q2 pid f
    simp [handleSearchStart]

/-- Witness for C8 at a concrete failing backend call. -/
theorem c8_witness :
    (handleSearchResolve initialAppState "q" (Except.error (some "boom"))).loading = false ∧
    (handleSearchResolve initialAppState "q" (Except.error (some "boom"))).error = some "boom" ∧
    (handleSearchResolve initialAppState "q" (Except.error (some "boom"))).rows = [] := by
  have h := c8_loading_cleared initialAppState "q" (Except.error (some "boom"))
  have h2 := h.2.1 (some "boom") rfl
  exact ⟨h.1, h2.1, h2.2⟩

/-! ## C9 -/

theorem listIncludes_iff (needle : List Char) : ∀ (hay : List Char),
    listIncludes needle hay = true ↔ needle <:+: hay := by
  intro hay
  induction hay with
  | nil =>
    simp [listIncludes, List.isEmpty_iff]
  | cons c t ih =>
    simp only [listIncludes, Bool.or_eq_true, ih]
    rw [List.isPrefixOf_iff_prefix]
    exact (List.infix_cons_iff).symm

/-- C9: the suggestion pool is the up-to-3 most recent searches (kind
`recent`) followed by all categories (kind `category`); a non-empty
query filters the pool by case-insensitive substring containment, an
empty query returns the whole pool, and the output is always a sublist
(order-preserving selection) of the pool. -/
theorem c9_suggestion_pipeline (q : String) (recents categories : List String) :
    suggestionPool recents categories
      = (recents.take 3).map (fun s => Suggestion.mk s SuggestionKind.recent (some "🕒"))
        ++ categories.map (fun c => Suggestion.mk c SuggestionKind.category (some "📁")) ∧
    (q = "" → generateSuggestions q recents categories = suggestionPool recents categories) ∧
    (q ≠ "" → generateSuggestions q recents categories
      = (suggestionPool recents categories).filter
          (fun sug => strIncludes sug.text.toLower q.toLower)) ∧
    (q ≠ "" → ∀ sug ∈ generateSuggestions q recents categories,
      q.toLower.toList <:+: sug.text.toLower.toList) ∧
    List.Sublist (generateSuggestions q recents categories)
      (suggestionPool recents categories) := by
  refine ⟨rfl, ?_, ?_, ?_, ?_⟩
  · intro hq
    simp [generateSuggestions, hq]
  · intro hq
    simp [generateSuggestions, hq]
  · intro hq sug hmem
    rw [generateSuggestions] at hmem
    rw [if_neg hq] at hmem
    have hinc := (List.mem_filter.mp hmem).2
    exact (listIncludes_iff _ _).mp hinc
  · rw [generateSuggestions]
    by_cases hq : q = ""
    · rw [if_pos hq]
    · rw [if_neg hq]
      exact List.filter_sublist _

/-- Witness for C9 on the spec's example: four recent searches, empty
query — the output is the full pool (which starts with exactly the
first three recents). -/
theorem c9_witness :
    generateSuggestions "" ["foo", "bar", "baz", "qux"] ["Planos"]
      = suggestionPool ["foo", "bar", "baz", "qux"] ["Planos"] :=
  (c9_suggestion_pipeline "" ["foo", "bar", "baz", "qux"] ["Planos"]).2.1 rfl

/-! ## Sorting helper lemmas -/

theorem sortedRows_eq (rows : List SearchRow) (k : String) :
    sortedRows rows k
      = List.insertionSort (fun a b : SearchRow => rowCmp k a b ≤ 0) rows := rfl

theorem rowCmp_relevance (a b : SearchRow) : rowCmp "relevance" a b = cmpRel a b := rfl

theorem rowCmp_type (a b : SearchRow) : rowCmp "type" a b = cmpType a b := rfl

theorem rowCmp_date (a b : SearchRow) : rowCmp "date" a b = cmpDate a b := rfl

theorem sortedRows_perm (rows : List SearchRow) (k : String) :
    List.Perm (sortedRows rows k) rows := by
  rw [sortedRows_eq]
  exact List.perm_insertionSort _ rows

theorem sortedRows_stable (rows : List SearchRow) (k : String) (x y : SearchRow)
    (hxy : rowCmp k x y ≤ 0) (hsub : List.Sublist [x, y] rows) :
    List.Sublist [x, y] (sortedRows rows k) := by
  rw [sortedRows_eq]
  exact List.pair_sublist_insertionSort hxy hsub

theorem sortedRows_relevance_sorted (rows : List SearchRow) :
    List.Sorted (fun a b : SearchRow => b.score ≤ a.score) (sortedRows rows "relevance") := by
  haveI : IsTotal SearchRow (fun a b : SearchRow => rowCmp "relevance" a b ≤ 0) := by
    constructor
    intro a b
    simp only [rowCmp_relevance, cmpRel]
    omega
  haveI : IsTrans SearchRow (fun a b : SearchRow => rowCmp "relevance" a b ≤ 0) := by
    constructor
    intro a b c hab hbc
    simp only [rowCmp_relevance, cmpRel] at hab hbc ⊢
    omega
  have h := List.sorted_insertionSort (fun a b : SearchRow => rowCmp "relevance" a b ≤ 0) rows
  rw [sortedRows_eq]
  refine List.Pairwise.imp ?_ h
  intro a b hab
  simp only [rowCmp_relevance, cmpRel] at hab
  omega

theorem strCmpInt_le_zero_iff (a b : String) : strCmpInt a b ≤ 0 ↔ a ≤ b := by
  unfold strCmpInt
  split_ifs with h1 h2
  · exact iff_of_true (by norm_num) h1.le
  · exact iff_of_false (by norm_num) (not_le.mpr h2)
  · exact iff_of_true le_rfl (le_of_not_lt h2)

theorem sortedRows_type_sorted (rows : List SearchRow) :
    List.Sorted (fun a b : SearchRow => a.doc_type ≤ b.doc_type) (sortedRows rows "type") := by
  haveI : IsTotal SearchRow (fun a b : SearchRow => rowCmp "type" a b ≤ 0) := by
    constructor
    intro a b
    simp only [rowCmp_type, cmpType, strCmpInt_le_zero_iff]
    exact le_total a.doc_type b.doc_type
  haveI : IsTrans SearchRow (fun a b : SearchRow => rowCmp "type" a b ≤ 0) := by
    constructor
    intro a b c hab hbc
    simp only [rowCmp_type, cmpType, strCmpInt_le_zero_iff] at hab hbc ⊢
    exact le_trans hab hbc
  have h := List.sorted_insertionSort (fun a b : SearchRow => rowCmp "type" a b ≤ 0) rows
  rw [sortedRows_eq]
  refine List.Pairwise.imp ?_ h
  intro a b hab
  simp only [rowCmp_type, cmpType, strCmpInt_le_zero_iff] at hab
  exact hab

theorem orderedInsert_congr {α : Type} (r s : α → α → Prop)
    [DecidableRel r] [DecidableRel s] (x : α) :
    ∀ (l : List α), (∀ b ∈ l, (r x b ↔ s x b)) →
      List.orderedInsert r x l = List.orderedInsert s x l := by
  intro l
  induction l with
  | nil => intro _; rfl
  | cons b t ih =>
    intro h
    have hb := h b (List.mem_cons_self b t)
    simp only [List.orderedInsert]
    by_cases hr : r x b
    · rw [if_pos hr, if_pos (hb.mp hr)]
    · rw [if_neg hr, if_neg (fun hs2 => hr (hb.mpr hs2)),
        ih (fun c hc => h c (List.mem_cons_of_mem b hc))]

theorem insertionSort_congr {α : Type} (r s : α → α → Prop)
    [DecidableRel r] [DecidableRel s] :
    ∀ (l : List α), (∀ a ∈ l, ∀ b ∈ l, (r a b ↔ s a b)) →
      List.insertionSort r l = List.insertionSort s l := by
  intro l
  induction l with
  | nil => intro _; rfl
  | cons a t ih =>
    intro h
    simp only [List.insertionSort]
    rw [ih (fun x hx y hy => h x (List.mem_cons_of_mem a hx) y (List.mem_cons_of_mem a hy))]
    apply orderedInsert_congr
    intro b hb
    have hbmem : b ∈ t := (List.perm_insertionSort s t).mem_iff.mp hb
    exact h a (List.mem_cons_self a t) b (List.mem_cons_of_mem a hbmem)

theorem sortedRows_date_sorted_of_parseable (rows : List SearchRow)
    (hp : ∀ r ∈ rows, (jsDateMsOpt r.date_modified).isSome) :
    List.Sorted (fun a b : SearchRow => specDateKey b ≤ specDateKey a)
      (sortedRows rows "date") := by
  have hcongr : List.insertionSort (fun a b : SearchRow => rowCmp "date" a b ≤ 0) rows
      = List.insertionSort (fun a b : SearchRow => specDateKey b ≤ specDateKey a) rows := by
    apply insertionSort_congr
    intro a ha b hb
    rcases Option.isSome_iff_exists.mp (hp a ha) with ⟨ta, hta⟩
    rcases Option.isSome_iff_exists.mp (hp b hb) with ⟨tb, htb⟩
    simp only [rowCmp_date]
    unfold cmpDate specDateKey
    rw [hta, htb]
    simp only [Option.getD_some]
    constructor
    · intro h2
      omega
    · intro h2
      omega
  rw [sortedRows_eq, hcongr]
  haveI : IsTotal SearchRow (fun a b : SearchRow => specDateKey b ≤ specDateKey a) :=
    ⟨fun a b => le_total (specDateKey b) (specDateKey a)⟩
  haveI : IsTrans SearchRow (fun a b : SearchRow => specDateKey b ≤ specDateKey a) :=
    ⟨fun a b c hab hbc => le_trans hbc hab⟩
  exact List.sorted_insertionSort _ rows

/-! ## C6 -/

/-- C6 (counterexample): under `sort:date` a row with an absent date
does *not* sort as epoch zero.  Its comparator value against every row
is `NaN`, coerced to `0`, so the stable sort leaves it where it was:
the dateless row stays *in front of* a row whose (later, hence
epoch-greater) date parses, violating the claimed descending order. -/
theorem c6_counterexample :
    sortedRows [rowNoDate, rowDated] "date" = [rowNoDate, rowDated] ∧
    specDateKey rowNoDate < specDateKey rowDated := by
  decide

/-- C6 (amended): the order produced is a permutation of the input for
every sort key; `relevance` sorts descending by score and `type`
ascending by `doc_type`; `date` sorts descending by date *only when
every row has a parseable date* — a row with an absent or unparseable
date compares equal (`NaN` coerced to `0`) to every row and therefore
keeps its relative position instead of sorting as epoch zero; ties
(comparator `0`) always preserve the original relative order. -/
theorem c6_amended_ordering (rows : List SearchRow) (k : String) :
    List.Perm (sortedRows rows k) rows ∧
    List.Sorted (fun a b : SearchRow => b.score ≤ a.score) (sortedRows rows "relevance") ∧
    List.Sorted (fun a b : SearchRow => a.doc_type ≤ b.doc_type) (sortedRows rows "type") ∧
    ((∀ r ∈ rows, (jsDateMsOpt r.date_modified).isSome) →
      List.Sorted (fun a b : SearchRow => specDateKey b ≤ specDateKey a)
        (sortedRows rows "date")) ∧
    (∀ a b : SearchRow, jsDateMsOpt a.date_modified = none →
      cmpDate a b = 0 ∧ cmpDate b a = 0) ∧
    (∀ x y : SearchRow, rowCmp k x y = 0 → List.Sublist [x, y] rows →
      List.Sublist [x, y] (sortedRows rows k)) := by
  refine ⟨sortedRows_perm rows k, sortedRows_relevance_sorted rows,
    sortedRows_type_sorted rows, sortedRows_date_sorted_of_parseable rows, ?_, ?_⟩
  · intro a b hnone
    constructor
    · cases hb : jsDateMsOpt b.date_modified <;> simp [cmpDate, hnone, hb]
    · cases hb : jsDateMsOpt b.date_modified <;> simp [cmpDate, hnone, hb]
  · intro x y hcmp hsub
    exact sortedRows_stable rows k x y (le_of_eq hcmp) hsub

/-- Witness for C6's amended theorem: with all dates parseable, the
date sort is descending by date. -/
theorem c6_witness :
    List.Sorted (fun a b : SearchRow => specDateKey b ≤ specDateKey a)
      (sortedRows [rowDated2, rowDated] "date") :=
  (c6_amended_ordering [rowDated2, rowDated] "date").2.2.2.1 (by decide)

/-! ## Grouping helper lemmas -/

/-- All rows collected across the groups, in group order. -/
def groupsJoin (gs : List (String × List SearchRow)) : List SearchRow :=
  (gs.map Prod.snd).flatten

theorem addToGroups_join (acc : List (String × List SearchRow)) (k : String) (r : SearchRow) :
    List.Perm (groupsJoin (addToGroups acc k r)) (groupsJoin acc ++ [r]) := by
  induction acc with
  | nil => simp [addToGroups, groupsJoin]
  | cons p rest ih =>
    rcases p with ⟨k', g⟩
    by_cases hk : k' = k
    · rw [addToGroups, if_pos hk]
      show List.Perm ((g ++ [r]) ++ groupsJoin rest) ((g ++ groupsJoin rest) ++ [r])
      calc (g ++ [r]) ++ groupsJoin rest
          = g ++ ([r] ++ groupsJoin rest) := by rw [List.append_assoc]
        _ ~ g ++ (groupsJoin rest ++ [r]) := List.Perm.append_left g List.perm_append_comm
        _ = (g ++ groupsJoin rest) ++ [r] := by rw [List.append_assoc]
    · rw [addToGroups, if_neg hk]
      show List.Perm (g ++ groupsJoin (addToGroups rest k r)) ((g ++ groupsJoin rest) ++ [r])
      calc g ++ groupsJoin (addToGroups rest k r)
          ~ g ++ (groupsJoin rest ++ [r]) := List.Perm.append_left g ih
        _ = (g ++ groupsJoin rest) ++ [r] := by rw [List.append_assoc]

theorem groupedResults_go_join (l : List SearchRow) :
    ∀ (acc : List (String × List SearchRow)),
      List.Perm (groupsJoin (l.foldl (fun acc r => addToGroups acc (rowGroupKey r) r) acc))
        (groupsJoin acc ++ l) := by
  induction l with
  | nil => intro acc; simp
  | cons r t ih =>
    intro acc
    rw [List.foldl_cons]
    calc groupsJoin (t.foldl (fun acc x => addToGroups acc (rowGroupKey x) x)
            (addToGroups acc (rowGroupKey r) r))
        ~ groupsJoin (addToGroups acc (rowGroupKey r) r) ++ t := ih _
      _ ~ (groupsJoin acc ++ [r]) ++ t :=
          List.Perm.append_right t (addToGroups_join acc (rowGroupKey r) r)
      _ = groupsJoin acc ++ (r :: t) := by simp

theorem groupedResults_join_perm (rows : List SearchRow) :
    List.Perm (groupsJoin (groupedResults rows)) rows := by
  have h := groupedResults_go_join rows []
  simpa [groupsJoin] using h

theorem addToGroups_consistent (k : String) (r : SearchRow) (hr : rowGroupKey r = k) :
    ∀ (acc : List (String × List SearchRow)),
      (∀ p ∈ acc, ∀ x ∈ p.2, rowGroupKey x = p.1) →
      ∀ p ∈ addToGroups acc k r, ∀ x ∈ p.2, rowGroupKey x = p.1 := by
  intro acc
  induction acc with
  | nil =>
    intro _ p hp x hx
    simp only [addToGroups, List.mem_singleton] at hp
    subst hp
    simp only [List.mem_singleton] at hx
    subst hx
    exact hr
  | cons q rest ih =>
    rcases q with ⟨k', g⟩
    intro hacc p hp x hx
    by_cases hkk : k' = k
    · rw [addToGroups, if_pos hkk] at hp
      rcases List.mem_cons.mp hp with h1 | h2
      · subst h1
        rcases List.mem_append.mp hx with hx1 | hx2
        · exact hacc (k', g) (List.mem_cons_self _ _) x hx1
        · simp only [List.mem_singleton] at hx2
          subst hx2
          rw [hr, hkk]
      · exact hacc p (List.mem_cons_of_mem _ h2) x hx
    · rw [addToGroups, if_neg hkk] at hp
      rcases List.mem_cons.mp hp with h1 | h2
      · subst h1
        exact hacc (k', g) (List.mem_cons_self _ _) x hx
      · exact ih (fun p2 hp2 => hacc p2 (List.mem_cons_of_mem _ hp2)) p h2 x hx

theorem groupedResults_consistent (rows : List SearchRow) :
    ∀ p ∈ groupedResults rows, ∀ x ∈ p.2, rowGroupKey x = p.1 := by
  suffices h : ∀ (l : List SearchRow) (acc : List (String × List SearchRow)),
      (∀ p ∈ acc, ∀ x ∈ p.2, rowGroupKey x = p.1) →
      ∀ p ∈ l.foldl (fun acc r => addToGroups acc (rowGroupKey r) r) acc,
        ∀ x ∈ p.2, rowGroupKey x = p.1 by
    exact h rows [] (by simp)
  intro l
  induction l with
  | nil =>
    intro acc hacc
    simpa using hacc
  | cons r t ih =>
    intro acc hacc
    rw [List.foldl_cons]
    exact ih _ (addToGroups_consistent (rowGroupKey r) r rfl acc hacc)

theorem addToGroups_keys (k : String) (r : SearchRow) :
    ∀ (acc : List (String × List SearchRow)),
      (addToGroups acc k r).map Prod.fst
        = if k ∈ acc.map Prod.fst then acc.map Prod.fst else acc.map Prod.fst ++ [k] := by
  intro acc
  induction acc with
  | nil => simp [addToGroups]
  | cons q rest ih =>
    rcases q with ⟨k', g⟩
    by_cases hkk : k' = k
    · rw [addToGroups, if_pos hkk]
      simp [hkk]
    · rw [addToGroups, if_neg hkk]
      by_cases hmem : k ∈ rest.map Prod.fst
      · simp [hmem, ih, Ne.symm hkk]
      · simp [hmem, ih, Ne.symm hkk]

theorem addToGroups_keys_nodup (k : String) (r : SearchRow)
    (acc : List (String × List SearchRow)) (h : (acc.map Prod.fst).Nodup) :
    ((addToGroups acc k r).map Prod.fst).Nodup := by
  rw [addToGroups_keys]
  by_cases hm : k ∈ acc.map Prod.fst
  · simpa [hm] using h
  · rw [if_neg hm]
    simp [List.nodup_append, h, hm]

theorem groupedResults_keys_nodup (rows : List SearchRow) :
    ((groupedResults rows).map Prod.fst).Nodup := by
  suffices h : ∀ (l : List SearchRow) (acc : List (String × List SearchRow)),
      (acc.map Prod.fst).Nodup →
      ((l.foldl (fun acc r => addToGroups acc (rowGroupKey r) r) acc).map Prod.fst).Nodup by
    exact h rows [] (by simp)
  intro l
  induction l with
  | nil =>
    intro acc hacc
    simpa using hacc
  | cons r t ih =>
    intro acc hacc
    rw [List.foldl_cons]
    exact ih _ (addToGroups_keys_nodup (rowGroupKey r) r acc hacc)

/-! ## C10 -/

/-- C10: for every row list and sort key, the ordered output is a
permutation of the input (nothing dropped or duplicated; the sort works
on a copy of the caller's array), and the grouped output partitions the
ordered output: the concatenation of the groups is a permutation of the
ordered rows, every row sits in the group keyed by its `doc_type` (with
`'Otros'` as the catch-all for an absent type), and group keys are
pairwise distinct, so each row lands in exactly one group. -/
theorem c10_permutation_partition (rows : List SearchRow) (k : String) :
    List.Perm (sortedRows rows k) rows ∧
    List.Perm (groupsJoin (groupedResults (sortedRows rows k))) (sortedRows rows k) ∧
    (∀ p ∈ groupedResults (sortedRows rows k), ∀ x ∈ p.2, rowGroupKey x = p.1) ∧
    ((groupedResults (sortedRows rows k)).map Prod.fst).Nodup :=
  ⟨sortedRows_perm rows k, groupedResults_join_perm _,
   groupedResults_consistent _, groupedResults_keys_nodup _⟩

end Acorag
